import Mathlib

/-!
Shallow embedding of the catenary fitting engine of
`src/local_module/caternary_py/bubble_cosh.py` (class `Catenary`).

Python `float` arithmetic is modelled by exact real arithmetic (`ℝ`):
`math.cosh` / `math.sinh` become `Real.cosh` / `Real.sinh`.  In this model a
float operation never rounds and never overflows, so the one run-time fault
that the `try/except` of `_boundary_error` can catch is the division by zero
raised when `a == 0`; the embedding makes that branch explicit.

The pattern-search loop of `fit_parameters` is written once, generically in an
arbitrary linear ordered field and an arbitrary error oracle `E` (standing for
the method `_boundary_error` closed over `self`), so that its structural
properties can be stated generically and exercised on computable rational
instances; `Catenary.fit_parameters` instantiates it at `ℝ` with the real
boundary-error function.  The Python `while` loop is embedded with an explicit
fuel argument: a result of `none` means the fuel ran out before the loop
finished, so termination of the Python loop is the existence of enough fuel.
-/

/-- The data carried by a `Catenary` object: the two constructor arguments and
the mutable curve parameters `a`, `b` (class `Catenary`, lines 20-31). -/
structure Catenary where
  diameter : ℝ
  span : ℝ
  a : ℝ
  b : ℝ

/-- Class constant `INF = 1e12` (line 13). -/
def Catenary.INF {α : Type} [LinearOrderedField α] : α := 10 ^ 12

/-- Class constant `DEFAULT_A = 1.0` (line 14). -/
def Catenary.DEFAULT_A {α : Type} [LinearOrderedField α] : α := 1

/-- Class constant `DEFAULT_B = 1.0` (line 15). -/
def Catenary.DEFAULT_B {α : Type} [LinearOrderedField α] : α := 1

/-- Class constant `DEFAULT_STEP = 0.1` (line 16). -/
def Catenary.DEFAULT_STEP {α : Type} [LinearOrderedField α] : α := 1 / 10

/-- Class constant `STEP_REDUCTION_FACTOR = 10.0` (line 17). -/
def Catenary.STEP_REDUCTION_FACTOR {α : Type} [LinearOrderedField α] : α := 10

/-- Class constant `DEFAULT_PRECISION = 1e-7` (line 18). -/
def Catenary.DEFAULT_PRECISION {α : Type} [LinearOrderedField α] : α := 1 / 10 ^ 7

/-- `Catenary.__init__` (lines 20-31): stores `diameter` and `span` and sets
`a`, `b` to the defaults.  The Python body contains no validation and no
`raise` statement, so on float inputs construction is a total function. -/
noncomputable def Catenary.init (diameter span : ℝ) : Catenary :=
  ⟨diameter, span, Catenary.DEFAULT_A, Catenary.DEFAULT_B⟩

/-- `Catenary._boundary_error` (lines 33-42).  In exact real arithmetic the
`try` body faults exactly when `a = 0` (the division `(0 - b) / a`), and the
`except` handler then returns `INF`; there is no overflow in `ℝ`. -/
noncomputable def Catenary.boundary_error (c : Catenary) (a b : ℝ) : ℝ :=
  if a = 0 then Catenary.INF
  else
    |a * Real.cosh ((0 - b) / a) - c.diameter / 2| +
      |a * Real.cosh ((c.span - b) / a) - c.diameter / 2|

/-- The running best of the candidate scan inside one `while` iteration of
`fit_parameters`: the locals `best_a`, `best_b`, `best_error`, `improved`
(lines 61-71). -/
structure ScanBest (α : Type) where
  a : α
  b : α
  error : α
  improved : Bool

/-- The loop state of `fit_parameters`: the locals `a`, `b`, `step`, `error`
(lines 56-58). -/
structure FitState (α : Type) where
  a : α
  b : α
  step : α
  error : α

/-- What one `while` iteration does: either fall through to the next iteration
with an updated state, or leave the loop through the `break` (line 76). -/
inductive FitOutcome (α : Type) where
  | next (s : FitState α)
  | finished (s : FitState α)

/-- The loop state an iteration ends with, whichever way it ends. -/
def FitOutcome.state {α : Type} : FitOutcome α → FitState α
  | .next s => s
  | .finished s => s

/-- The nine candidate pairs of one iteration in Python's scan order:
`candidate_a` is the outer loop over `[a - step, a, a + step]`, `candidate_b`
the inner loop over `[b - step, b, b + step]` (lines 65-66). -/
def candidates {α : Type} [LinearOrderedField α] (a b step : α) : List (α × α) :=
  [(a - step, b - step), (a - step, b), (a - step, b + step),
   (a, b - step), (a, b), (a, b + step),
   (a + step, b - step), (a + step, b), (a + step, b + step)]

/-- The body of the inner candidate loop (lines 67-71): a candidate replaces
the running best exactly when its error is strictly smaller. -/
def scanUpdate {α : Type} [LinearOrderedField α] (E : α → α → α) (acc : ScanBest α)
    (q : α × α) : ScanBest α :=
  if E q.1 q.2 < acc.error then ⟨q.1, q.2, E q.1 q.2, true⟩ else acc

/-- The whole candidate scan of one iteration (lines 61-71), starting from the
incumbent and the `improved = False` flag. -/
def runScan {α : Type} [LinearOrderedField α] (E : α → α → α) (s : FitState α) : ScanBest α :=
  (candidates s.a s.b s.step).foldl (scanUpdate E) ⟨s.a, s.b, s.error, false⟩

/-- One full `while` iteration of `fit_parameters` (lines 60-79): scan the
nine candidates, then either commit the running best (keeping the step), or
shrink the step by `STEP_REDUCTION_FACTOR` and `break` when it falls below the
precision. -/
def fitBody {α : Type} [LinearOrderedField α] (E : α → α → α) (precision : α)
    (s : FitState α) : FitOutcome α :=
  let best := runScan E s
  if best.improved then FitOutcome.next ⟨best.a, best.b, s.step, best.error⟩
  else
    let step2 := s.step / Catenary.STEP_REDUCTION_FACTOR
    if step2 < precision then FitOutcome.finished ⟨s.a, s.b, step2, s.error⟩
    else FitOutcome.next ⟨s.a, s.b, step2, s.error⟩

/-- The `while error > precision` loop (lines 60-79) with explicit fuel:
`none` means the fuel ran out before the loop finished. -/
def fitLoop {α : Type} [LinearOrderedField α] (E : α → α → α) (precision : α) :
    ℕ → FitState α → Option (FitState α)
  | 0, _ => none
  | fuel + 1, s =>
    if precision < s.error then
      match fitBody E precision s with
      | FitOutcome.finished t => some t
      | FitOutcome.next t => fitLoop E precision fuel t
    else some s

/-- The loop state `fit_parameters` starts every call from (lines 56-58):
`step = DEFAULT_STEP`, `error = INF`, `(a, b) = (DEFAULT_A, DEFAULT_B)`. -/
def fitInit {α : Type} [LinearOrderedField α] : FitState α :=
  ⟨Catenary.DEFAULT_A, Catenary.DEFAULT_B, Catenary.DEFAULT_STEP, Catenary.INF⟩

/-- `Catenary.fit_parameters` (lines 44-82): run the search from the fixed
start state and write the resulting `(a, b)` back into the object.  The
`precision` argument models the Python parameter with its `None` default
(lines 54-55); the fuel makes the `while` loop total. -/
noncomputable def Catenary.fit_parameters (c : Catenary) (precision : Option ℝ)
    (fuel : ℕ) : Option Catenary :=
  (fitLoop c.boundary_error (precision.getD Catenary.DEFAULT_PRECISION) fuel fitInit).map
    fun s => ⟨c.diameter, c.span, s.a, s.b⟩

/-- The Python call `fit_parameters(precision)` runs to completion. -/
def FitTerminates (c : Catenary) (precision : Option ℝ) : Prop :=
  ∃ fuel, (c.fit_parameters precision fuel).isSome = true

/-- The loop state after `n` iterations of the `while` body, continuing with
the frozen state once the loop has ended (used to state that the recorded
best-error sequence is non-increasing). -/
def fitIterate {α : Type} [LinearOrderedField α] (E : α → α → α) (precision : α)
    (s : FitState α) : ℕ → FitState α
  | 0 => s
  | n + 1 => (fitBody E precision (fitIterate E precision s n)).state

/-- `Catenary.y` (lines 84-86). -/
noncomputable def Catenary.y (c : Catenary) (x : ℝ) : ℝ :=
  c.a * Real.cosh ((x - c.b) / c.a)

/-- `Catenary.area_under_curve` (lines 88-91). -/
noncomputable def Catenary.area_under_curve (c : Catenary) : ℝ :=
  Real.pi * c.a ^ 2 * (Real.sinh (c.span / c.a) + c.span / c.a)

/-- `Catenary.midpoint_radius` (lines 93-97). -/
noncomputable def Catenary.midpoint_radius (c : Catenary) : ℝ :=
  c.a * Real.cosh ((c.span / 2 - c.b) / c.a)

/-- `Catenary.midpoint_dip` (lines 99-101). -/
noncomputable def Catenary.midpoint_dip (c : Catenary) : ℝ :=
  c.diameter / 2 - c.midpoint_radius

/-- `Catenary.midpoint_gap` (lines 103-105). -/
noncomputable def Catenary.midpoint_gap (c : Catenary) : ℝ :=
  2 * c.midpoint_radius

/-- The x sample list of `Catenary.plot` (line 160):
`[i * self.span / (num_points - 1) for i in range(num_points)]`.
When `num_points = 1` the comprehension body divides `0.0` by zero and Python
raises `ZeroDivisionError`, modelled by `none`; for any other count the
comprehension is fault-free (for `num_points = 0` it is empty and the division
never runs). -/
noncomputable def Catenary.x_vals (c : Catenary) (num_points : ℕ) : Option (List ℝ) :=
  if num_points = 1 then none
  else
    some ((List.range num_points).map fun i : ℕ =>
      (i : ℝ) * c.span / ((num_points : ℝ) - 1))

/-- The sampled curve of `Catenary.plot` (lines 160-161): each sample `x`
paired with `self.y(x)`. -/
noncomputable def Catenary.curve_points (c : Catenary) (num_points : ℕ) :
    Option (List (ℝ × ℝ)) :=
  (c.x_vals num_points).map fun l => l.map fun x => (x, c.y x)

/-- The endpoint marker trace of `Catenary.plot` (lines 176-184):
`x = [0, span]`, `y = [diameter / 2, diameter / 2]`. -/
noncomputable def Catenary.endpoint_markers (c : Catenary) : List (ℝ × ℝ) :=
  [(0, c.diameter / 2), (c.span, c.diameter / 2)]

/-- Spec formula `y(x) = a·cosh((x − b)/a)` (spec section 4.1), written from
the spec's words to compare with the code's `Catenary.y`. -/
noncomputable def spec_y (a b x : ℝ) : ℝ := a * Real.cosh ((x - b) / a)

/-- Spec formula `area_under_curve() = π·a²·(sinh(span/a) + span/a)` (spec
section 4.1), written from the spec's words. -/
noncomputable def spec_area_under_curve (a span : ℝ) : ℝ :=
  Real.pi * a ^ 2 * (Real.sinh (span / a) + span / a)

/-- Spec formula `midpoint_radius() = a·cosh((span/2 − b)/a)` (spec section
4.1), written from the spec's words. -/
noncomputable def spec_midpoint_radius (a b span : ℝ) : ℝ :=
  a * Real.cosh ((span / 2 - b) / a)

/-- The grid of points reachable from `(a, b)` by whole-step moves: the
candidate pairs of every iteration of one fixed-step phase of the search stay
on this grid. -/
def gridLattice (a b step : ℝ) : Set (ℝ × ℝ) :=
  {p | ∃ i j : ℤ, p = (a + i * step, b + j * step)}

/-- The grid points whose error is strictly below the current best error:
every strict improvement of a fixed-step phase moves into this set and then
shrinks it. -/
def sublevelSet (E : ℝ → ℝ → ℝ) (s : FitState ℝ) : Set (ℝ × ℝ) :=
  {p | p ∈ gridLattice s.a s.b s.step ∧ E p.1 p.2 < s.error}

lemma boundary_error_eq_of_fields (c c2 : Catenary) (hd : c.diameter = c2.diameter)
    (hs : c.span = c2.span) : c.boundary_error = c2.boundary_error := by
  funext a b
  rw [Catenary.boundary_error, Catenary.boundary_error, hd, hs]

/-- C1 counterexample: the claim says constructing a fitter with
`diameter ≤ 0` fails at construction time; on the code, constructing with
`diameter = -1` succeeds and returns an ordinary fitter storing the invalid
diameter (the `__init__` body has no validation and no `raise`). -/
theorem claim_C1_cex : Catenary.init (-1) 0 = ⟨-1, 0, 1, 1⟩ := rfl

/-- C1 (amended): construction never validates: for every diameter and span,
including `diameter ≤ 0`, construction succeeds and returns a fitter storing
that diameter and span, with `(a, b) = (1, 1)`. -/
theorem claim_C1 : ∀ diameter span : ℝ,
    (Catenary.init diameter span).diameter = diameter ∧
    (Catenary.init diameter span).span = span ∧
    (Catenary.init diameter span).a = 1 ∧
    (Catenary.init diameter span).b = 1 :=
  fun _ _ => ⟨rfl, rfl, rfl, rfl⟩

/-- C4 counterexample: the claim says every candidate `a` at or near `0`
makes the boundary-error evaluator return the sentinel `1e12`; on the code,
the near-zero candidate `a = 1/1000` with `b = 0` on the fitter
`diameter = 1, span = 0` evaluates without any fault to `499/500 ≠ 1e12`
(the `cosh` arguments are `0`, so nothing diverges). -/
theorem claim_C4_cex :
    Catenary.boundary_error (Catenary.init 1 0) (1 / 1000) 0 = 499 / 500 ∧
    (499 / 500 : ℝ) ≠ Catenary.INF := by
  constructor
  · rw [Catenary.boundary_error, if_neg (by norm_num : (1 / 1000 : ℝ) ≠ 0)]
    show |(1 / 1000 : ℝ) * Real.cosh ((0 - 0) / (1 / 1000)) - 1 / 2| +
        |(1 / 1000 : ℝ) * Real.cosh ((0 - 0) / (1 / 1000)) - 1 / 2| = 499 / 500
    rw [show ((0 : ℝ) - 0) / (1 / 1000) = 0 by norm_num, Real.cosh_zero]
    rw [abs_of_neg (by norm_num : (1 / 1000 : ℝ) * 1 - 1 / 2 < 0)]
    norm_num
  · rw [Catenary.INF]; norm_num

/-- C4 (amended): the boundary-error evaluator is total; at `a = 0`, where the
evaluation divides by zero, it returns the sentinel `INF = 1e12` instead of
raising; at every `a ≠ 0` it returns the plain absolute-error sum; and its
value is always a finite nonnegative real, never infinite or NaN. -/
theorem claim_C4 : ∀ (c : Catenary) (a b : ℝ),
    c.boundary_error 0 b = Catenary.INF ∧
    (Catenary.INF : ℝ) = 10 ^ 12 ∧
    0 ≤ c.boundary_error a b ∧
    (a ≠ 0 → c.boundary_error a b =
      |a * Real.cosh ((0 - b) / a) - c.diameter / 2| +
        |a * Real.cosh ((c.span - b) / a) - c.diameter / 2|) := by
  intro c a b
  refine ⟨by rw [Catenary.boundary_error, if_pos rfl], rfl, ?_, ?_⟩
  · rw [Catenary.boundary_error]
    split
    · rw [Catenary.INF]; positivity
    · positivity
  · intro h
    rw [Catenary.boundary_error, if_neg h]

/-- C7: the derived midpoint quantities satisfy the two exact identities
`midpoint_gap = 2 * midpoint_radius` and
`midpoint_dip + midpoint_radius = diameter / 2` for every fitter state. -/
theorem claim_C7 : ∀ c : Catenary,
    c.midpoint_gap = 2 * c.midpoint_radius ∧
    c.midpoint_dip + c.midpoint_radius = c.diameter / 2 := by
  intro c
  refine ⟨rfl, ?_⟩
  rw [Catenary.midpoint_dip]
  ring

/-- C8: the derived-geometry operations compute exactly the spec's formulas
from the current `(a, b)` and the stored spec. -/
theorem claim_C8 : ∀ (c : Catenary) (x : ℝ),
    c.y x = spec_y c.a c.b x ∧
    c.area_under_curve = spec_area_under_curve c.a c.span ∧
    c.midpoint_radius = spec_midpoint_radius c.a c.b c.span :=
  fun _ _ => ⟨rfl, rfl, rfl⟩

/-- C9 counterexample: the claim says every `n ≥ 1` produces `n` sample
points; on the code, `num_points = 1` makes the comprehension evaluate
`0 * span / 0`, raising `ZeroDivisionError` (modelled by `none`). -/
theorem claim_C9_cex : (Catenary.init 1 (6 / 10)).x_vals 1 = none := by
  rw [Catenary.x_vals, if_pos rfl]

/-- C9 (amended): for every requested sample count `n ≥ 2` (stated with
`n = m + 2`), sampling produces exactly `n` x values `x_i = i·span/(n−1)`,
which run from `0` to `span` with constant spacing `span/(n−1)`, each paired
with `y(x_i)` by a pure recomputation, together with the endpoint markers
`(0, diameter/2)` and `(span, diameter/2)`. -/
theorem claim_C9 : ∀ (c : Catenary) (m : ℕ),
    ∃ xs : List ℝ,
      c.x_vals (m + 2) = some xs ∧
      xs.length = m + 2 ∧
      (∀ (i : ℕ) (h : i < xs.length), xs.get ⟨i, h⟩ = (i : ℝ) * c.span / ((m : ℝ) + 1)) ∧
      (∀ h : 0 < xs.length, xs.get ⟨0, h⟩ = 0) ∧
      (∀ h : m + 1 < xs.length, xs.get ⟨m + 1, h⟩ = c.span) ∧
      (∀ (i : ℕ) (h1 : i < xs.length) (h2 : i + 1 < xs.length),
        xs.get ⟨i + 1, h2⟩ - xs.get ⟨i, h1⟩ = c.span / ((m : ℝ) + 1)) ∧
      c.curve_points (m + 2) = some (xs.map fun x => (x, c.y x)) ∧
      c.endpoint_markers = [(0, c.diameter / 2), (c.span, c.diameter / 2)] := by
  intro c m
  have hden : ((m + 2 : ℕ) : ℝ) - 1 = (m : ℝ) + 1 := by push_cast; ring
  have hm1 : ((m : ℝ) + 1) ≠ 0 := by positivity
  have hx : c.x_vals (m + 2) =
      some ((List.range (m + 2)).map fun i : ℕ => (i : ℝ) * c.span / ((m : ℝ) + 1)) := by
    rw [Catenary.x_vals, if_neg (by omega), hden]
  refine ⟨(List.range (m + 2)).map fun i : ℕ => (i : ℝ) * c.span / ((m : ℝ) + 1),
    hx, by simp, ?_, ?_, ?_, ?_, ?_, rfl⟩
  · intro i h
    simp only [List.get_eq_getElem, List.getElem_map, List.getElem_range]
  · intro h
    simp only [List.get_eq_getElem, List.getElem_map, List.getElem_range]
    norm_num
  · intro h
    simp only [List.get_eq_getElem, List.getElem_map, List.getElem_range]
    rw [mul_comm, mul_div_assoc]
    rw [show ((m + 1 : ℕ) : ℝ) = (m : ℝ) + 1 by push_cast; ring]
    rw [div_self hm1, mul_one]
  · intro i h1 h2
    simp only [List.get_eq_getElem, List.getElem_map, List.getElem_range]
    rw [div_sub_div_same]
    congr 1
    push_cast
    ring
  · rw [Catenary.curve_points, hx]
    simp only [Option.map_some']

/-- C10: `fit_parameters` is history-independent and idempotent: the result
does not depend on the fitter's current `(a, b)` (the search restarts from
the fixed default state), and running it a second time on the fitter it
returned reproduces that fitter exactly. -/
theorem claim_C10 :
    (∀ (d s a b a2 b2 : ℝ) (p : Option ℝ) (fuel : ℕ),
      Catenary.fit_parameters ⟨d, s, a, b⟩ p fuel =
        Catenary.fit_parameters ⟨d, s, a2, b2⟩ p fuel) ∧
    (∀ (c : Catenary) (p : Option ℝ) (fuel : ℕ),
      (c.fit_parameters p fuel).bind (fun c2 => c2.fit_parameters p fuel) =
        c.fit_parameters p fuel) := by
  constructor
  · intro d s a b a2 b2 p fuel
    rfl
  · intro c p fuel
    cases h : c.fit_parameters p fuel with
    | none => rfl
    | some c2 =>
      have h2 := h
      rw [Catenary.fit_parameters] at h2
      obtain ⟨t, ht, hc2⟩ := Option.map_eq_some'.mp h2
      have hE : Catenary.boundary_error c2 = Catenary.boundary_error c :=
        boundary_error_eq_of_fields c2 c (by rw [← hc2]) (by rw [← hc2])
      show Catenary.fit_parameters c2 p fuel = some c2
      rw [Catenary.fit_parameters, hE, ht]
      simp only [Option.map_some']
      rw [← hc2]

lemma scanUpdate_error_le {α : Type} [LinearOrderedField α] (E : α → α → α)
    (acc : ScanBest α) (q : α × α) : (scanUpdate E acc q).error ≤ acc.error := by
  rw [scanUpdate]
  split
  · exact le_of_lt (by assumption)
  · exact le_refl _

lemma foldl_scan_error_le {α : Type} [LinearOrderedField α] (E : α → α → α)
    (l : List (α × α)) (acc : ScanBest α) :
    (l.foldl (scanUpdate E) acc).error ≤ acc.error := by
  induction l generalizing acc with
  | nil => exact le_refl _
  | cons q t ih =>
    rw [List.foldl_cons]
    exact le_trans (ih (scanUpdate E acc q)) (scanUpdate_error_le E acc q)

lemma foldl_scan_error_le_elem {α : Type} [LinearOrderedField α] (E : α → α → α)
    (l : List (α × α)) (acc : ScanBest α) :
    ∀ q ∈ l, (l.foldl (scanUpdate E) acc).error ≤ E q.1 q.2 := by
  induction l generalizing acc with
  | nil => intro q h; cases h
  | cons r t ih =>
    intro q hq
    rw [List.foldl_cons]
    rcases List.mem_cons.mp hq with h | h
    · subst h
      refine le_trans (foldl_scan_error_le E t _) ?_
      rw [scanUpdate]
      split
      · exact le_refl _
      · exact le_of_not_lt (by assumption)
    · exact ih _ q h

/-- Full characterization of the running-best fold: either no candidate beat
the starting accumulator and the fold returns it unchanged, or the list splits
around the adopted candidate, the first one attaining the final (minimal)
error, every candidate before it being strictly worse. -/
lemma foldl_scan_spec {α : Type} [LinearOrderedField α] (E : α → α → α)
    (l : List (α × α)) (acc : ScanBest α) :
    (l.foldl (scanUpdate E) acc = acc ∧ ∀ q ∈ l, acc.error ≤ E q.1 q.2) ∨
    (∃ l1 q l2, l = l1 ++ q :: l2 ∧
      (l.foldl (scanUpdate E) acc).a = q.1 ∧
      (l.foldl (scanUpdate E) acc).b = q.2 ∧
      (l.foldl (scanUpdate E) acc).error = E q.1 q.2 ∧
      (l.foldl (scanUpdate E) acc).error < acc.error ∧
      (l.foldl (scanUpdate E) acc).improved = true ∧
      ∀ r ∈ l1, (l.foldl (scanUpdate E) acc).error < E r.1 r.2) := by
  induction l generalizing acc with
  | nil => exact Or.inl ⟨rfl, by intro q h; cases h⟩
  | cons c t ih =>
    rw [List.foldl_cons]
    by_cases hc : E c.1 c.2 < acc.error
    · have hacc : scanUpdate E acc c = ⟨c.1, c.2, E c.1 c.2, true⟩ := if_pos hc
      rw [hacc]
      rcases ih ⟨c.1, c.2, E c.1 c.2, true⟩ with ⟨heq, _⟩ | ⟨l1, q, l2, hsplit, ha, hb, herr, hlt, himp, hpre⟩
      · right
        refine ⟨[], c, t, by simp, ?_⟩
        rw [heq]
        exact ⟨rfl, rfl, rfl, hc, rfl, by intro r h; cases h⟩
      · right
        refine ⟨c :: l1, q, l2, by rw [hsplit, List.cons_append], ha, hb, herr, lt_trans hlt hc, himp, ?_⟩
        intro r hr
        rcases List.mem_cons.mp hr with h | h
        · subst h; exact hlt
        · exact hpre r h
    · have hacc : scanUpdate E acc c = acc := if_neg hc
      rw [hacc]
      rcases ih acc with ⟨heq, hall⟩ | ⟨l1, q, l2, hsplit, ha, hb, herr, hlt, himp, hpre⟩
      · left
        refine ⟨heq, ?_⟩
        intro q hq
        rcases List.mem_cons.mp hq with h | h
        · subst h; exact le_of_not_lt hc
        · exact hall q h
      · right
        refine ⟨c :: l1, q, l2, by rw [hsplit, List.cons_append], ha, hb, herr, hlt, himp, ?_⟩
        intro r hr
        rcases List.mem_cons.mp hr with h | h
        · subst h; exact lt_of_lt_of_le hlt (le_of_not_lt hc)
        · exact hpre r h

lemma foldl_scan_improved {α : Type} [LinearOrderedField α] (E : α → α → α)
    (l : List (α × α)) (acc : ScanBest α) :
    (l.foldl (scanUpdate E) acc).improved = true ↔
      acc.improved = true ∨ ∃ q ∈ l, E q.1 q.2 < acc.error := by
  rcases foldl_scan_spec E l acc with ⟨heq, hall⟩ | ⟨l1, q, l2, hsplit, _, _, herr, hlt, himp, _⟩
  · rw [heq]
    constructor
    · exact fun h => Or.inl h
    · rintro (h | ⟨q, hq, hqlt⟩)
      · exact h
      · exact absurd hqlt (not_lt.mpr (hall q hq))
  · rw [himp]
    simp only [true_iff]
    exact Or.inr ⟨q, by rw [hsplit]; simp, herr ▸ hlt⟩

lemma runScan_not_improved {α : Type} [LinearOrderedField α] (E : α → α → α)
    (s : FitState α) (h : (runScan E s).improved = false) :
    runScan E s = ⟨s.a, s.b, s.error, false⟩ := by
  have hrs : runScan E s =
      (candidates s.a s.b s.step).foldl (scanUpdate E) ⟨s.a, s.b, s.error, false⟩ := rfl
  rcases foldl_scan_spec E (candidates s.a s.b s.step) ⟨s.a, s.b, s.error, false⟩ with
    ⟨heq, _⟩ | ⟨_, _, _, _, _, _, _, _, himp, _⟩
  · rw [hrs]
    exact heq
  · rw [hrs, himp] at h
    cases h

lemma runScan_improved_spec {α : Type} [LinearOrderedField α] (E : α → α → α)
    (s : FitState α) (h : (runScan E s).improved = true) :
    ((runScan E s).a, (runScan E s).b) ∈ candidates s.a s.b s.step ∧
      E (runScan E s).a (runScan E s).b = (runScan E s).error ∧
      (runScan E s).error < s.error := by
  have hrs : runScan E s =
      (candidates s.a s.b s.step).foldl (scanUpdate E) ⟨s.a, s.b, s.error, false⟩ := rfl
  rcases foldl_scan_spec E (candidates s.a s.b s.step) ⟨s.a, s.b, s.error, false⟩ with
    ⟨heq, _⟩ | ⟨l1, q, l2, hsplit, ha, hb, herr, hlt, _, _⟩
  · rw [hrs, heq] at h
    cases h
  · rw [hrs]
    refine ⟨?_, ?_, hlt⟩
    · rw [ha, hb, hsplit]
      simp
    · rw [ha, hb, herr]

lemma fitBody_improved {α : Type} [LinearOrderedField α] (E : α → α → α) (p : α)
    (s : FitState α) (h : (runScan E s).improved = true) :
    fitBody E p s =
      FitOutcome.next ⟨(runScan E s).a, (runScan E s).b, s.step, (runScan E s).error⟩ := by
  rw [fitBody]
  simp only [h, if_true]

lemma fitBody_not_improved {α : Type} [LinearOrderedField α] (E : α → α → α) (p : α)
    (s : FitState α) (h : (runScan E s).improved = false) :
    fitBody E p s =
      if s.step / Catenary.STEP_REDUCTION_FACTOR < p then
        FitOutcome.finished ⟨s.a, s.b, s.step / Catenary.STEP_REDUCTION_FACTOR, s.error⟩
      else FitOutcome.next ⟨s.a, s.b, s.step / Catenary.STEP_REDUCTION_FACTOR, s.error⟩ := by
  rw [fitBody]
  simp only [h, Bool.false_eq_true, if_false]

lemma fitBody_state_error_le {α : Type} [LinearOrderedField α] (E : α → α → α) (p : α)
    (s : FitState α) : (fitBody E p s).state.error ≤ s.error := by
  cases h : (runScan E s).improved
  · rw [fitBody_not_improved E p s h]
    split
    · exact le_refl _
    · exact le_refl _
  · rw [fitBody_improved E p s h]
    exact foldl_scan_error_le E _ _

lemma fitLoop_error_le {α : Type} [LinearOrderedField α] (E : α → α → α) (p : α) :
    ∀ (fuel : ℕ) (s t : FitState α), fitLoop E p fuel s = some t → t.error ≤ s.error := by
  intro fuel
  induction fuel with
  | zero => intro s t h; cases h
  | succ f ih =>
    intro s t h
    rw [fitLoop] at h
    by_cases hg : p < s.error
    · rw [if_pos hg] at h
      cases hb : fitBody E p s with
      | finished u =>
        rw [hb] at h
        have hu : u = (fitBody E p s).state := by rw [hb]; rfl
        cases h
        rw [hu]
        exact fitBody_state_error_le E p s
      | next u =>
        rw [hb] at h
        have hu : u = (fitBody E p s).state := by rw [hb]; rfl
        refine le_trans (ih u t h) ?_
        rw [hu]
        exact fitBody_state_error_le E p s
    · rw [if_neg hg] at h
      cases h
      exact le_refl _

/-- C2: in every iteration the boundary error is evaluated at all nine
candidates `{a−s, a, a+s} × {b−s, b, b+s}` in the scan order `a` outer and
`b` inner (the center `(a, b)` included and re-evaluated); the scan keeps a
single running best, whose error is a lower bound of the incumbent error and
of all nine candidate errors; the incumbent moves only when some candidate is
strictly better (ties keep the incumbent); among strict improvers the adopted
candidate is the first in scan order attaining the final error, every
candidate scanned before it being strictly worse; and the iteration commits
the running best once, as the next loop state. -/
theorem claim_C2 {α : Type} [LinearOrderedField α] (E : α → α → α) (precision : α)
    (s : FitState α) :
    candidates s.a s.b s.step =
      [(s.a - s.step, s.b - s.step), (s.a - s.step, s.b), (s.a - s.step, s.b + s.step),
       (s.a, s.b - s.step), (s.a, s.b), (s.a, s.b + s.step),
       (s.a + s.step, s.b - s.step), (s.a + s.step, s.b), (s.a + s.step, s.b + s.step)] ∧
    (s.a, s.b) ∈ candidates s.a s.b s.step ∧
    (runScan E s).error ≤ s.error ∧
    (∀ q ∈ candidates s.a s.b s.step, (runScan E s).error ≤ E q.1 q.2) ∧
    ((runScan E s).improved = true ↔ ∃ q ∈ candidates s.a s.b s.step, E q.1 q.2 < s.error) ∧
    ((runScan E s).improved = false →
      (runScan E s).a = s.a ∧ (runScan E s).b = s.b ∧ (runScan E s).error = s.error) ∧
    ((runScan E s).improved = true →
      ∃ l1 q l2, candidates s.a s.b s.step = l1 ++ q :: l2 ∧
        (runScan E s).a = q.1 ∧ (runScan E s).b = q.2 ∧
        E q.1 q.2 = (runScan E s).error ∧ (runScan E s).error < s.error ∧
        ∀ r ∈ l1, (runScan E s).error < E r.1 r.2) ∧
    ((runScan E s).improved = true →
      fitBody E precision s =
        FitOutcome.next ⟨(runScan E s).a, (runScan E s).b, s.step, (runScan E s).error⟩) := by
  have hrs : runScan E s =
      (candidates s.a s.b s.step).foldl (scanUpdate E) ⟨s.a, s.b, s.error, false⟩ := rfl
  refine ⟨rfl, by rw [candidates]; simp, ?_, ?_, ?_, ?_, ?_, fitBody_improved E precision s⟩
  · rw [hrs]
    exact foldl_scan_error_le E _ _
  · rw [hrs]
    exact foldl_scan_error_le_elem E _ _
  · rw [hrs, foldl_scan_improved E _ _]
    simp
  · intro h
    have := runScan_not_improved E s h
    rw [this]
    exact ⟨rfl, rfl, rfl⟩
  · intro h
    rcases foldl_scan_spec E (candidates s.a s.b s.step) ⟨s.a, s.b, s.error, false⟩ with
      ⟨heq, _⟩ | ⟨l1, q, l2, hsplit, ha, hb, herr, hlt, _, hpre⟩
    · rw [hrs, heq] at h
      cases h
    · rw [hrs]
      exact ⟨l1, q, l2, hsplit, ha, hb, herr.symm, hlt, hpre⟩

/-- C3: an iteration with no strictly improving candidate divides the step by
exactly `STEP_REDUCTION_FACTOR = 10` and does not move the incumbent
`(a, b, error)`; if the shrunk step falls below the requested precision the
loop breaks, returning the current best, and otherwise continues with the
incumbent unchanged; an improving iteration keeps the step unchanged; the
loop exits successfully as soon as the current best error is at most the
precision, whose default is `1e-7`. -/
theorem claim_C3 {α : Type} [LinearOrderedField α] (E : α → α → α) (precision : α)
    (s t : FitState α) (fuel : ℕ) :
    (Catenary.STEP_REDUCTION_FACTOR : α) = 10 ∧
    (Catenary.DEFAULT_PRECISION : α) = 1 / 10 ^ 7 ∧
    ((runScan E s).improved = false →
      (s.step / 10 < precision →
        fitBody E precision s = FitOutcome.finished ⟨s.a, s.b, s.step / 10, s.error⟩) ∧
      (¬ s.step / 10 < precision →
        fitBody E precision s = FitOutcome.next ⟨s.a, s.b, s.step / 10, s.error⟩)) ∧
    ((runScan E s).improved = true →
      fitBody E precision s =
        FitOutcome.next ⟨(runScan E s).a, (runScan E s).b, s.step, (runScan E s).error⟩) ∧
    (s.error ≤ precision → fitLoop E precision (fuel + 1) s = some s) ∧
    (precision < s.error → fitBody E precision s = FitOutcome.finished t →
      fitLoop E precision (fuel + 1) s = some t) := by
  have h10 : (Catenary.STEP_REDUCTION_FACTOR : α) = 10 := rfl
  refine ⟨rfl, rfl, ?_, fitBody_improved E precision s, ?_, ?_⟩
  · intro h
    have hb := fitBody_not_improved E precision s h
    rw [h10] at hb
    constructor
    · intro hsh
      rw [hb, if_pos hsh]
    · intro hsh
      rw [hb, if_neg hsh]
  · intro h
    rw [fitLoop, if_neg (not_lt.mpr h)]
  · intro hg hb
    rw [fitLoop, if_pos hg, hb]

/-- C6: the incumbent best-error sequence is non-increasing: a single
iteration of the search never increases the error component of the loop
state, the recorded error sequence across iterations is non-increasing at
every index, and the state the loop finally returns has an error at most the
starting one. -/
theorem claim_C6 {α : Type} [LinearOrderedField α] (E : α → α → α) (precision : α)
    (s : FitState α) (n fuel : ℕ) :
    (fitBody E precision s).state.error ≤ s.error ∧
    (fitIterate E precision s (n + 1)).error ≤ (fitIterate E precision s n).error ∧
    (∀ t, fitLoop E precision fuel s = some t → t.error ≤ s.error) := by
  refine ⟨fitBody_state_error_le E precision s, ?_, ?_⟩
  · rw [fitIterate]
    exact fitBody_state_error_le E precision _
  · intro t h
    exact fitLoop_error_le E precision fuel s t h

lemma boundary_error_nonneg (c : Catenary) (a b : ℝ) : 0 ≤ c.boundary_error a b := by
  rw [Catenary.boundary_error]
  split
  · rw [Catenary.INF]
    positivity
  · positivity

lemma fitLoop_neg_precision (c : Catenary) :
    ∀ (fuel : ℕ) (s : FitState ℝ), 0 ≤ s.error → 0 < s.step →
      fitLoop c.boundary_error (-1) fuel s = none := by
  intro fuel
  induction fuel with
  | zero => intro s _ _; rfl
  | succ f ih =>
    intro s herr hstep
    rw [fitLoop, if_pos (by linarith : (-1 : ℝ) < s.error)]
    cases himp : (runScan c.boundary_error s).improved with
    | false =>
      have hpos : (0 : ℝ) < s.step / Catenary.STEP_REDUCTION_FACTOR := by
        rw [Catenary.STEP_REDUCTION_FACTOR]
        exact div_pos hstep (by norm_num)
      rw [fitBody_not_improved _ _ _ himp,
        if_neg (by linarith : ¬ s.step / Catenary.STEP_REDUCTION_FACTOR < (-1 : ℝ))]
      exact ih _ herr hpos
    | true =>
      rw [fitBody_improved _ _ _ himp]
      obtain ⟨_, hEq, _⟩ := runScan_improved_spec c.boundary_error s himp
      exact ih _ (hEq ▸ boundary_error_nonneg c _ _) hstep

/-- C5 counterexample: the claim says the search terminates for every
requested precision; calling with `precision = -1` (a float the Python caller
may pass) never terminates: the loop guard `error > precision` always holds
because the error stays nonnegative, and the break `step < precision` never
fires because the step stays positive, so no amount of fuel finishes the
loop. -/
theorem claim_C5_cex : ¬ FitTerminates (Catenary.init 1 (6 / 10)) (some (-1)) := by
  rintro ⟨fuel, h⟩
  rw [Catenary.fit_parameters] at h
  have hnone : fitLoop (Catenary.init 1 (6 / 10)).boundary_error
      (Option.getD (some (-1)) Catenary.DEFAULT_PRECISION) fuel fitInit = none := by
    have h1 : Option.getD (some (-1)) (Catenary.DEFAULT_PRECISION : ℝ) = -1 := rfl
    rw [h1]
    apply fitLoop_neg_precision
    · show (0 : ℝ) ≤ Catenary.INF
      rw [Catenary.INF]
      positivity
    · show (0 : ℝ) < Catenary.DEFAULT_STEP
      rw [Catenary.DEFAULT_STEP]
      norm_num
  rw [hnone] at h
  cases h

lemma half_exp_abs_le_cosh (t : ℝ) : Real.exp |t| / 2 ≤ Real.cosh t := by
  rw [Real.cosh_eq]
  rcases abs_cases t with ⟨h, _⟩ | ⟨h, _⟩
  · rw [h]
    have := Real.exp_pos (-t)
    linarith
  · rw [h]
    have := Real.exp_pos t
    linarith

lemma le_abs_mul_cosh (a b : ℝ) (ha : a ≠ 0) :
    (|a| + |b|) / 2 ≤ |a| * Real.cosh (b / a) := by
  have h1 : Real.exp |b / a| / 2 ≤ Real.cosh (b / a) := half_exp_abs_le_cosh _
  have h2 : |b / a| + 1 ≤ Real.exp |b / a| := Real.add_one_le_exp _
  have habs : (0 : ℝ) ≤ |a| := abs_nonneg a
  have h4 : |a| * |b / a| = |b| := by
    rw [← abs_mul, mul_comm, div_mul_cancel₀ _ ha]
  have h3 : |a| * (|b / a| + 1) ≤ |a| * Real.exp |b / a| :=
    mul_le_mul_of_nonneg_left h2 habs
  have h5 : |a| * (Real.exp |b / a| / 2) ≤ |a| * Real.cosh (b / a) :=
    mul_le_mul_of_nonneg_left h1 habs
  have h6 : |a| * (|b / a| + 1) = |b| + |a| := by
    rw [mul_add, mul_one, h4]
  calc (|a| + |b|) / 2 = (|b| + |a|) / 2 := by ring
    _ = |a| * (|b / a| + 1) / 2 := by rw [h6]
    _ ≤ |a| * Real.exp |b / a| / 2 := by linarith
    _ = |a| * (Real.exp |b / a| / 2) := by ring
    _ ≤ |a| * Real.cosh (b / a) := h5

/-- Coercivity of the boundary error: a candidate whose error is below any
bound `e ≤ INF` lies in a bounded region of the `(a, b)` plane.  This is what
keeps each fixed-step phase of the search finite. -/
lemma boundary_error_coercive (c : Catenary) (e a b : ℝ) (he : e ≤ Catenary.INF)
    (h : c.boundary_error a b < e) : |a| + |b| < 2 * e + |c.diameter| := by
  by_cases ha : a = 0
  · rw [ha, Catenary.boundary_error, if_pos rfl] at h
    exact absurd (lt_of_lt_of_le h he) (lt_irrefl _)
  · rw [Catenary.boundary_error, if_neg ha] at h
    have h1 : |a * Real.cosh ((0 - b) / a) - c.diameter / 2| < e :=
      lt_of_le_of_lt (le_add_of_nonneg_right (abs_nonneg _)) h
    have h2 : |a * Real.cosh ((0 - b) / a)| - |c.diameter / 2| < e :=
      lt_of_le_of_lt (abs_sub_abs_le_abs_sub _ _) h1
    have h3 : |a * Real.cosh ((0 - b) / a)| = |a| * Real.cosh ((0 - b) / a) := by
      rw [abs_mul, abs_of_pos (Real.cosh_pos _)]
    have h4 : (|a| + |0 - b|) / 2 ≤ |a| * Real.cosh ((0 - b) / a) :=
      le_abs_mul_cosh a (0 - b) ha
    have h5 : |(0 : ℝ) - b| = |b| := by rw [zero_sub, abs_neg]
    have h6 : |c.diameter / 2| = |c.diameter| / 2 := by
      rw [abs_div]
      norm_num
    rw [h5] at h4
    rw [h3, h6] at h2
    linarith

lemma candidates_mem_gridLattice {a b step : ℝ} :
    ∀ q ∈ candidates a b step, q ∈ gridLattice a b step := by
  intro q hq
  rw [candidates] at hq
  simp only [List.mem_cons, List.not_mem_nil, or_false] at hq
  rcases hq with h | h | h | h | h | h | h | h | h <;> subst h
  · exact ⟨-1, -1, Prod.ext (by push_cast; ring) (by push_cast; ring)⟩
  · exact ⟨-1, 0, Prod.ext (by push_cast; ring) (by push_cast; ring)⟩
  · exact ⟨-1, 1, Prod.ext (by push_cast; ring) (by push_cast; ring)⟩
  · exact ⟨0, -1, Prod.ext (by push_cast; ring) (by push_cast; ring)⟩
  · exact ⟨0, 0, Prod.ext (by push_cast; ring) (by push_cast; ring)⟩
  · exact ⟨0, 1, Prod.ext (by push_cast; ring) (by push_cast; ring)⟩
  · exact ⟨1, -1, Prod.ext (by push_cast; ring) (by push_cast; ring)⟩
  · exact ⟨1, 0, Prod.ext (by push_cast; ring) (by push_cast; ring)⟩
  · exact ⟨1, 1, Prod.ext (by push_cast; ring) (by push_cast; ring)⟩

lemma gridLattice_shift {a b step a2 b2 : ℝ} (h : (a2, b2) ∈ gridLattice a b step) :
    gridLattice a2 b2 step = gridLattice a b step := by
  obtain ⟨i0, j0, hp⟩ := h
  have ha2 : a2 = a + (i0 : ℝ) * step := congrArg Prod.fst hp
  have hb2 : b2 = b + (j0 : ℝ) * step := congrArg Prod.snd hp
  ext p
  constructor
  · rintro ⟨i, j, rfl⟩
    exact ⟨i0 + i, j0 + j,
      Prod.ext (by rw [ha2]; push_cast; ring) (by rw [hb2]; push_cast; ring)⟩
  · rintro ⟨i, j, rfl⟩
    exact ⟨i - i0, j - j0,
      Prod.ext (by rw [ha2]; push_cast; ring) (by rw [hb2]; push_cast; ring)⟩

lemma gridLattice_inter_finite (a b step M : ℝ) (hstep : 0 < step) :
    {p : ℝ × ℝ | p ∈ gridLattice a b step ∧ |p.1| + |p.2| < M}.Finite := by
  set N : ℤ := ⌈(M + |a| + |b|) / step⌉ with hN
  have hfin : ((Set.Icc (-N) N ×ˢ Set.Icc (-N) N : Set (ℤ × ℤ))).Finite :=
    (Set.finite_Icc (-N) N).prod (Set.finite_Icc (-N) N)
  apply Set.Finite.subset
    (hfin.image fun ij : ℤ × ℤ => ((a + ij.1 * step, b + ij.2 * step) : ℝ × ℝ))
  have bound : ∀ (x : ℝ) (k : ℤ), |x| ≤ |a| + |b| → |x + (k : ℝ) * step| < M →
      -N ≤ k ∧ k ≤ N := by
    intro x k hx hk
    have h1 : |(k : ℝ) * step| ≤ |x + (k : ℝ) * step| + |x| := by
      have he : |(k : ℝ) * step| = |(x + (k : ℝ) * step) + (-x)| := by
        congr 1
        ring
      rw [he]
      refine (abs_add _ _).trans ?_
      rw [abs_neg]
    have h2 : |(k : ℝ)| * step < M + (|a| + |b|) := by
      have := lt_of_le_of_lt h1 (by linarith : |x + (k : ℝ) * step| + |x| < M + (|a| + |b|))
      rwa [abs_mul, abs_of_pos hstep] at this
    have h3 : |(k : ℝ)| < (M + |a| + |b|) / step := by
      rw [lt_div_iff₀ hstep]
      linarith
    have h5 : (M + |a| + |b|) / step ≤ (N : ℝ) := Int.le_ceil _
    have h7 : |k| ≤ N := by
      have h6 : |(k : ℝ)| ≤ (N : ℝ) := le_of_lt (lt_of_lt_of_le h3 h5)
      rw [← Int.cast_abs] at h6
      exact_mod_cast h6
    exact abs_le.mp h7
  rintro p ⟨⟨i, j, rfl⟩, hbox⟩
  have hbox1 : |a + (i : ℝ) * step| < M :=
    lt_of_le_of_lt (le_add_of_nonneg_right (abs_nonneg _)) hbox
  have hbox2 : |b + (j : ℝ) * step| < M :=
    lt_of_le_of_lt (le_add_of_nonneg_left (abs_nonneg _)) hbox
  obtain ⟨hi1, hi2⟩ := bound a i (le_add_of_nonneg_right (abs_nonneg _)) hbox1
  obtain ⟨hj1, hj2⟩ := bound b j (le_add_of_nonneg_left (abs_nonneg _)) hbox2
  exact ⟨(i, j), ⟨⟨hi1, hi2⟩, ⟨hj1, hj2⟩⟩, rfl⟩

lemma sublevelSet_finite (c : Catenary) (s : FitState ℝ) (hstep : 0 < s.step)
    (herr : s.error ≤ Catenary.INF) : (sublevelSet c.boundary_error s).Finite := by
  apply (gridLattice_inter_finite s.a s.b s.step (2 * s.error + |c.diameter|) hstep).subset
  rintro p ⟨hlat, hlt⟩
  exact ⟨hlat, boundary_error_coercive c s.error p.1 p.2 herr hlt⟩

lemma sublevel_ssubset_of_improved (c : Catenary) (s : FitState ℝ)
    (h : (runScan c.boundary_error s).improved = true) :
    sublevelSet c.boundary_error
        ⟨(runScan c.boundary_error s).a, (runScan c.boundary_error s).b, s.step,
          (runScan c.boundary_error s).error⟩ ⊂
      sublevelSet c.boundary_error s := by
  obtain ⟨hmem, hEq, hlt⟩ := runScan_improved_spec c.boundary_error s h
  have hlat : ((runScan c.boundary_error s).a, (runScan c.boundary_error s).b) ∈
      gridLattice s.a s.b s.step := candidates_mem_gridLattice _ hmem
  have hshift : gridLattice (runScan c.boundary_error s).a (runScan c.boundary_error s).b
      s.step = gridLattice s.a s.b s.step := gridLattice_shift hlat
  have hsub : sublevelSet c.boundary_error
      ⟨(runScan c.boundary_error s).a, (runScan c.boundary_error s).b, s.step,
        (runScan c.boundary_error s).error⟩ ⊆ sublevelSet c.boundary_error s := by
    rintro p ⟨hp1, hp2⟩
    exact ⟨hshift ▸ hp1, lt_trans hp2 hlt⟩
  rw [Set.ssubset_iff_of_subset hsub]
  refine ⟨((runScan c.boundary_error s).a, (runScan c.boundary_error s).b), ⟨hlat, ?_⟩, ?_⟩
  · rw [hEq]
    exact hlt
  · rintro ⟨_, habs⟩
    rw [hEq] at habs
    exact lt_irrefl _ habs

/-- Within one fixed-step phase: if every non-improving continuation is known
to terminate (hypothesis `H`), then the whole loop terminates, by strong
induction on the number of strictly better grid points left. -/
lemma fitLoop_phase (c : Catenary) (p σ : ℝ)
    (H : ∀ s : FitState ℝ, s.step = σ → 0 < s.step → s.error ≤ Catenary.INF →
      p < s.error → (runScan c.boundary_error s).improved = false →
      ¬ s.step / Catenary.STEP_REDUCTION_FACTOR < p →
      ∃ fuel, (fitLoop c.boundary_error p fuel
        ⟨s.a, s.b, s.step / Catenary.STEP_REDUCTION_FACTOR, s.error⟩).isSome = true) :
    ∀ (n : ℕ) (s : FitState ℝ), s.step = σ → 0 < s.step → s.error ≤ Catenary.INF →
      (sublevelSet c.boundary_error s).ncard ≤ n →
      ∃ fuel, (fitLoop c.boundary_error p fuel s).isSome = true := by
  intro n
  induction n using Nat.strong_induction_on with
  | _ n ih =>
    intro s hσ hstep herr hcard
    by_cases hg : p < s.error
    · cases himp : (runScan c.boundary_error s).improved with
      | true =>
        have hss := sublevel_ssubset_of_improved c s himp
        have hfin := sublevelSet_finite c s hstep herr
        have hclt : (sublevelSet c.boundary_error
            ⟨(runScan c.boundary_error s).a, (runScan c.boundary_error s).b, s.step,
              (runScan c.boundary_error s).error⟩).ncard
            < (sublevelSet c.boundary_error s).ncard := Set.ncard_lt_ncard hss hfin
        obtain ⟨_, _, hblt⟩ := runScan_improved_spec c.boundary_error s himp
        obtain ⟨fuel, hfuel⟩ := ih (sublevelSet c.boundary_error
            ⟨(runScan c.boundary_error s).a, (runScan c.boundary_error s).b, s.step,
              (runScan c.boundary_error s).error⟩).ncard (by omega)
          ⟨(runScan c.boundary_error s).a, (runScan c.boundary_error s).b, s.step,
            (runScan c.boundary_error s).error⟩ hσ hstep
          (le_trans (le_of_lt hblt) herr) le_rfl
        refine ⟨fuel + 1, ?_⟩
        rw [fitLoop, if_pos hg, fitBody_improved c.boundary_error p s himp]
        exact hfuel
      | false =>
        by_cases hsh : s.step / Catenary.STEP_REDUCTION_FACTOR < p
        · refine ⟨1, ?_⟩
          rw [fitLoop, if_pos hg, fitBody_not_improved c.boundary_error p s himp, if_pos hsh]
          rfl
        · obtain ⟨fuel, hfuel⟩ := H s hσ hstep herr hg himp hsh
          refine ⟨fuel + 1, ?_⟩
          rw [fitLoop, if_pos hg, fitBody_not_improved c.boundary_error p s himp, if_neg hsh]
          exact hfuel
    · refine ⟨1, ?_⟩
      rw [fitLoop, if_neg hg]
      rfl

/-- Induction on the number of step shrinks still possible before the step
falls below the precision: the search loop always runs out of strict
improvements or reaches the break, so it terminates. -/
lemma fitLoop_terminates_K (c : Catenary) (p : ℝ) :
    ∀ (K : ℕ) (s : FitState ℝ), 0 < s.step → s.error ≤ Catenary.INF →
      s.step / 10 ^ K < p →
      ∃ fuel, (fitLoop c.boundary_error p fuel s).isSome = true := by
  intro K
  induction K with
  | zero =>
    intro s hstep herr hK
    rw [pow_zero, div_one] at hK
    refine fitLoop_phase c p s.step ?_ (sublevelSet c.boundary_error s).ncard s rfl hstep
      herr le_rfl
    intro u hσ hstepu herru hgu himpu hshu
    exfalso
    apply hshu
    rw [Catenary.STEP_REDUCTION_FACTOR]
    calc u.step / 10 < u.step := div_lt_self hstepu (by norm_num)
      _ = s.step := hσ
      _ < p := hK
  | succ K ihK =>
    intro s hstep herr hK
    refine fitLoop_phase c p s.step ?_ (sublevelSet c.boundary_error s).ncard s rfl hstep
      herr le_rfl
    intro u hσ hstepu herru hgu himpu hshu
    apply ihK ⟨u.a, u.b, u.step / Catenary.STEP_REDUCTION_FACTOR, u.error⟩
    · show (0 : ℝ) < u.step / Catenary.STEP_REDUCTION_FACTOR
      rw [Catenary.STEP_REDUCTION_FACTOR]
      exact div_pos hstepu (by norm_num)
    · exact herru
    · show u.step / Catenary.STEP_REDUCTION_FACTOR / 10 ^ K < p
      rw [Catenary.STEP_REDUCTION_FACTOR, div_div, hσ, ← pow_succ']
      exact hK

lemma fit_terminates_of_pos (c : Catenary) (po : Option ℝ)
    (hp : 0 < po.getD Catenary.DEFAULT_PRECISION) : FitTerminates c po := by
  obtain ⟨K, hK⟩ : ∃ K : ℕ, ((1 : ℝ) / 10) ^ K < po.getD Catenary.DEFAULT_PRECISION :=
    exists_pow_lt_of_lt_one hp (by norm_num)
  have hK2 : (fitInit : FitState ℝ).step / 10 ^ K < po.getD Catenary.DEFAULT_PRECISION := by
    show (Catenary.DEFAULT_STEP : ℝ) / 10 ^ K < po.getD Catenary.DEFAULT_PRECISION
    rw [Catenary.DEFAULT_STEP]
    have he : (1 : ℝ) / 10 / 10 ^ K = (1 / 10) ^ (K + 1) := by
      rw [one_div_pow, div_div, ← pow_succ']
    have hle : ((1 : ℝ) / 10) ^ (K + 1) ≤ ((1 : ℝ) / 10) ^ K :=
      pow_le_pow_of_le_one (by norm_num) (by norm_num) (Nat.le_succ K)
    rw [he]
    exact lt_of_le_of_lt hle hK
  obtain ⟨fuel, hfuel⟩ := fitLoop_terminates_K c (po.getD Catenary.DEFAULT_PRECISION) K fitInit
    (by show (0 : ℝ) < Catenary.DEFAULT_STEP; rw [Catenary.DEFAULT_STEP]; norm_num)
    (le_refl _) hK2
  refine ⟨fuel, ?_⟩
  rw [Catenary.fit_parameters]
  cases hres : fitLoop c.boundary_error (po.getD Catenary.DEFAULT_PRECISION) fuel fitInit with
  | none =>
    rw [hres] at hfuel
    cases hfuel
  | some t =>
    rfl

/-- C5 (amended): for every diameter and span and every requested precision
that is positive — including the default `1e-7` used when no precision is
passed — `fit_parameters` terminates: some finite fuel lets the search loop
exit, either with the best error at or below the precision or through the
step-underflow break.  (The unamended claim fails for nonpositive precisions,
see the counterexample.) -/
theorem claim_C5 (c : Catenary) (p : ℝ) (hp : 0 < p) :
    FitTerminates c (some p) ∧ FitTerminates c none := by
  constructor
  · exact fit_terminates_of_pos c (some p) hp
  · refine fit_terminates_of_pos c none ?_
    show (0 : ℝ) < Catenary.DEFAULT_PRECISION
    rw [Catenary.DEFAULT_PRECISION]
    norm_num

/-- C5 witness: the amended termination theorem applied at the concrete fitter
`diameter = 1, span = 0` with precision `1`. -/
theorem claim_C5_witness :
    FitTerminates (Catenary.init 1 0) (some 1) ∧ FitTerminates (Catenary.init 1 0) none :=
  claim_C5 (Catenary.init 1 0) 1 one_pos
